import Mathlib

/-!
Verification of the `crumb.py` path-marker tool.

The Python source is shallowly embedded: a file is a list of lines, a line a
list of characters.  `find_insertion_index`, `insert_path_marker`,
`should_ignore` (degraded substring mode) and the driver loop of `main` are
translated definition by definition; file I/O is represented by passing the
read content (`Option (List Line)`, `none` for a read failure) and booleans
for dry-run / backup-failure / write-failure outcomes.
-/

set_option maxHeartbeats 1000000

namespace Crumb

/-- A line of text, modelled as its character sequence (terminator included). -/
abbrev Line := List Char

/-- Character list of a string literal. -/
def chars (s : String) : List Char := s.data

/-- Whitespace characters recognised by Python `str.strip()` (ASCII part). -/
def isSpace (c : Char) : Bool :=
  c = ' ' || c = '\t' || c = '\n' || c = '\r' || c = Char.ofNat 11 || c = Char.ofNat 12

/-- Remove trailing characters satisfying `p` (via reversal). -/
def dropRightWhile (p : Char → Bool) (l : List Char) : List Char :=
  (l.reverse.dropWhile p).reverse

/-- Python `str.strip()`: remove leading and trailing whitespace. -/
def pyStrip (l : List Char) : List Char :=
  dropRightWhile isSpace (l.dropWhile isSpace)

/-- Python `str.startswith`: `isPre p l` is true when `p` begins `l`. -/
def isPre : List Char → List Char → Bool
  | [], _ => true
  | _ :: _, [] => false
  | a :: as, b :: bs => a == b && isPre as bs

/-- Python `str.endswith`: `isSuf p l` is true when `p` ends `l`. -/
def isSuf (p l : List Char) : Bool := isPre p.reverse l.reverse

/-- Python `in` on strings: `containsSub p l` is true when `p` occurs in `l`. -/
def containsSub (p : List Char) : List Char → Bool
  | [] => isPre p []
  | c :: cs => isPre p (c :: cs) || containsSub p cs

/-- The marker detection key `"# crumb:"` from `find_insertion_index`. -/
def crumbKey : List Char := chars "# crumb:"

/-- The shebang key `"#!"`. -/
def shebangKey : List Char := chars "#!"

/-- The encoding-declaration key `"# -*- coding:"`. -/
def codingKey : List Char := chars "# -*- coding:"

/-- A quote character, as in the character class of `docstring_re`. -/
def isQuote (c : Char) : Bool := c = '"' || c = Char.ofNat 39

/-- The regex `docstring_re` = `^\s*["']{3}`: optional leading whitespace then
three characters each of which is a quote (not necessarily all identical). -/
def docstringMatch (l : List Char) : Bool :=
  match l.dropWhile isSpace with
  | c1 :: c2 :: c3 :: _ => isQuote c1 && isQuote c2 && isQuote c3
  | _ => false

/-- Loop state of `find_insertion_index`: the candidate `insertion_index`,
the `in_docstring` flag and the remembered `docstring_delim`. -/
structure ScanState where
  ins : Nat
  inDoc : Bool
  delim : List Char
deriving DecidableEq

/-- Outcome of one iteration of the `find_insertion_index` loop body. -/
inductive StepRes where
  | cont (s : ScanState)
  | foundCrumb
  | brk (n : Nat)
deriving DecidableEq

/-- The body of the `for i, line in enumerate(lines)` loop of
`find_insertion_index`, for the line at index `i` with state `s`. -/
def scanStep (i : Nat) (s : ScanState) (line : Line) : StepRes :=
  let stripped := pyStrip line
  if containsSub crumbKey stripped then .foundCrumb
  else if i == 0 && isPre shebangKey stripped then .cont ⟨i + 1, s.inDoc, s.delim⟩
  else if decide (i ≤ 1) && isPre codingKey stripped then .cont ⟨i + 1, s.inDoc, s.delim⟩
  else if !s.inDoc then
    if docstringMatch stripped then
      .cont ⟨i + 1, !(isSuf (stripped.take 3) stripped && decide (stripped.length > 3)),
             stripped.take 3⟩
    else .brk i
  else
    if isSuf s.delim stripped then .cont ⟨i + 1, false, s.delim⟩
    else .cont ⟨s.ins, true, s.delim⟩

/-- The loop of `find_insertion_index`, scanning the remaining lines starting
at absolute index `i` with state `s`. -/
def findAux (replace : Bool) (i : Nat) (s : ScanState) : List Line → Option Nat
  | [] => some s.ins
  | line :: rest =>
    match scanStep i s line with
    | .foundCrumb => if replace then some i else none
    | .brk n => some n
    | .cont s2 => findAux replace (i + 1) s2 rest

/-- `find_insertion_index(lines, replace)`: `none` models Python `None`. -/
def find_insertion_index (lines : List Line) (replace : Bool) : Option Nat :=
  findAux replace 0 ⟨0, false, []⟩ lines

/-- Run the scan over a block of lines that are all `continue` steps,
returning the resulting state (`none` if some line breaks the loop or hits an
existing marker). -/
def scanPre (i : Nat) (s : ScanState) : List Line → Option ScanState
  | [] => some s
  | line :: rest =>
    match scanStep i s line with
    | .cont s2 => scanPre (i + 1) s2 rest
    | _ => none

/-- The index at which the scan of `find_insertion_index` first meets a line
whose stripped content contains `"# crumb:"` (`none` if the scan breaks or
ends first): the scanned leading region's marker position. -/
def scanCrumbIdx (i : Nat) (s : ScanState) : List Line → Option Nat
  | [] => none
  | line :: rest =>
    match scanStep i s line with
    | .foundCrumb => some i
    | .brk _ => none
    | .cont s2 => scanCrumbIdx (i + 1) s2 rest

/-- Python `list.insert(idx, x)` (clamping `idx` to the length, as Python does). -/
def pyInsert (idx : Nat) (x : Line) (l : List Line) : List Line :=
  l.take idx ++ x :: l.drop idx

/-- The marker line `f"# crumb: {path}\n"`. -/
def markerLine (path : List Char) : Line :=
  chars "# crumb: " ++ path ++ ['\n']

/-- Outcome of `insert_path_marker` on one file.  `skipped` is a `False`
return with the file untouched, `dryRun` a `True` return with the file
untouched, `modified` a `True` return with the file rewritten, and `crash`
an uncaught `IndexError` from `lines[idx] = marker_line`. -/
inductive MutResult where
  | skipped
  | dryRun
  | modified (newLines : List Line)
  | crash
deriving DecidableEq

/-- `insert_path_marker`: the file content is `content` (`none` for a read
failure), the marker line is `marker`, and the backup / write error paths are
driven by `backup_fails` / `write_fails`. -/
def insert_path_marker (content : Option (List Line)) (marker : Line)
    (dry_run backup_fails write_fails replace : Bool) : MutResult :=
  match content with
  | none => .skipped
  | some lines =>
    if lines.isEmpty then .skipped
    else
      match find_insertion_index lines replace with
      | none => .skipped
      | some idx =>
        if dry_run then .dryRun
        else if backup_fails then .skipped
        else if replace && lines.any (fun l => containsSub crumbKey l) then
          if idx < lines.length then
            (if write_fails then .skipped else .modified (lines.set idx marker))
          else .crash
        else
          if write_fails then .skipped else .modified (pyInsert idx marker lines)

/-- `should_ignore` in degraded substring mode (no `PathSpec` available):
the relative path is matched against each stored pattern; a pattern ending in
`/` matches by comparing the path against the pattern without its final slash,
and otherwise the pattern matches as a plain substring. -/
def should_ignore (rel_path : List Char) : List (List Char) → Bool
  | [] => false
  | p :: rest =>
    if isSuf (chars "/") p && isPre p.dropLast rel_path then true
    else if containsSub p rel_path then true
    else should_ignore rel_path rest

/-- The run counters of `main`. -/
structure Summary where
  total : Nat
  updated : Nat
  skipped : Nat
  replaced : Nat
deriving DecidableEq

/-- One candidate file as seen by the walk in `main`: whether its name matches
a configured extension, whether the ignore filter matches it, its content
(`none` for a read failure), its marker path, and its backup/write outcomes. -/
structure FileCase where
  extMatch : Bool
  ignored : Bool
  content : Option (List Line)
  path : List Char
  backupFails : Bool
  writeFails : Bool

/-- State threaded through `main`'s loop: the counters plus the last values of
the loop-local variables `modified` and `had_crumb` (`none` when the loop body
never reached them, in which case they are unbound Python locals). -/
structure LoopState where
  counts : Summary
  lastVars : Option (Bool × Bool)

/-- The truthiness of `insert_path_marker`'s return value. -/
def retTrue : MutResult → Bool
  | .skipped => false
  | _ => true

/-- The body of `main`'s per-file loop.  `none` models an uncaught exception
escaping the loop. -/
def processOne (dryRun replace ignoreEnabled : Bool) (st : LoopState) (f : FileCase) :
    Option LoopState :=
  if !f.extMatch then some st
  else
    let c1 : Summary := { st.counts with total := st.counts.total + 1 }
    if ignoreEnabled && f.ignored then
      some ⟨{ c1 with skipped := c1.skipped + 1 }, st.lastVars⟩
    else
      let had_crumb : Bool :=
        match f.content with
        | some ls => ls.any (fun l => containsSub crumbKey l)
        | none => false
      match insert_path_marker f.content (markerLine f.path) dryRun f.backupFails
          f.writeFails replace with
      | .crash => none
      | r =>
        let m := retTrue r
        let c2 : Summary :=
          if m then
            { c1 with updated := c1.updated + 1,
                      replaced := c1.replaced + (if had_crumb && replace then 1 else 0) }
          else { c1 with skipped := c1.skipped + 1 }
        some ⟨c2, some (m, had_crumb)⟩

/-- `main` after argument parsing: walk the candidate files, then run the
trailing (duplicated) summary blocks.  The stray `if modified:` blocks at the
end of the source sit inside `if args.dry_run:` bodies and read the loop-local
variables `modified` and `had_crumb`; when the loop body never assigned them,
that read raises `UnboundLocalError`, modelled as `none`. -/
def mainRun (dryRun replace ignoreEnabled : Bool) (files : List FileCase) :
    Option Summary :=
  match files.foldlM (processOne dryRun replace ignoreEnabled) ⟨⟨0, 0, 0, 0⟩, none⟩ with
  | none => none
  | some st =>
    if dryRun then
      match st.lastVars with
      | none => none
      | some (m, hc) =>
        let c1 : Summary :=
          if m then
            { st.counts with
                updated := st.counts.updated + 1,
                replaced := st.counts.replaced + (if hc && replace then 1 else 0) }
          else { st.counts with skipped := st.counts.skipped + 1 }
        let c2 : Summary :=
          if m then { c1 with updated := c1.updated + 1 }
          else { c1 with skipped := c1.skipped + 1 }
        some c2
    else some st.counts

/-! ### Substring characterisations -/

theorem isPre_iff (p : List Char) : ∀ l : List Char, isPre p l = true ↔ ∃ t, l = p ++ t := by
  induction p with
  | nil => intro l; simp [isPre]
  | cons a as ih =>
    intro l
    cases l with
    | nil =>
      simp only [isPre]
      constructor
      · intro h; cases h
      · rintro ⟨t, ht⟩; cases ht
    | cons b bs =>
      simp only [isPre, Bool.and_eq_true, beq_iff_eq]
      constructor
      · rintro ⟨rfl, h⟩
        obtain ⟨t, rfl⟩ := (ih bs).mp h
        exact ⟨t, rfl⟩
      · rintro ⟨t, ht⟩
        injection ht with h1 h2
        exact ⟨h1.symm, (ih bs).mpr ⟨t, h2⟩⟩

theorem containsSub_iff (p : List Char) : ∀ l : List Char,
    containsSub p l = true ↔ ∃ u v, l = u ++ p ++ v := by
  intro l
  induction l with
  | nil =>
    simp only [containsSub, isPre_iff]
    constructor
    · rintro ⟨t, ht⟩
      exact ⟨[], t, by simpa using ht⟩
    · rintro ⟨u, v, h⟩
      rcases List.append_eq_nil.mp (List.append_eq_nil.mp h.symm).1 with ⟨rfl, rfl⟩
      exact ⟨v, by simpa using h⟩
  | cons c cs ih =>
    simp only [containsSub, Bool.or_eq_true, isPre_iff, ih]
    constructor
    · rintro (⟨t, ht⟩ | ⟨u, v, rfl⟩)
      · exact ⟨[], t, by simpa using ht⟩
      · exact ⟨c :: u, v, by simp⟩
    · rintro ⟨u, v, h⟩
      cases u with
      | nil => exact Or.inl ⟨v, by simpa using h⟩
      | cons x u2 =>
        injection h with h1 h2
        exact Or.inr ⟨u2, v, h2⟩

/-- If a pattern with a non-space first character occurs in a list, it still
occurs after dropping leading whitespace, with the pattern and everything
after it intact. -/
theorem dropWhile_keep (c : Char) (q v : List Char) (hc : isSpace c = false) :
    ∀ u : List Char, ∃ u2,
      List.dropWhile isSpace (u ++ (c :: q) ++ v) = u2 ++ (c :: q) ++ v := by
  intro u
  induction u with
  | nil =>
    refine ⟨[], ?_⟩
    simp [List.dropWhile_cons, hc]
  | cons a u2 ih =>
    by_cases ha : isSpace a = true
    · simpa [List.dropWhile_cons, ha] using ih
    · refine ⟨a :: u2, ?_⟩
      simp [List.dropWhile_cons, ha]

/-- Occurrence of a pattern whose first and last characters are non-space
survives `pyStrip`. -/
theorem containsSub_pyStrip (p l : List Char) (c : Char) (q : List Char)
    (d : Char) (r : List Char) (hp : p = c :: q) (hpr : p.reverse = d :: r)
    (hc : isSpace c = false) (hd : isSpace d = false)
    (h : containsSub p l = true) : containsSub p (pyStrip l) = true := by
  obtain ⟨u, v, rfl⟩ := (containsSub_iff p l).mp h
  subst hp
  obtain ⟨u2, he⟩ := dropWhile_keep c q v hc u
  rw [pyStrip, he, dropRightWhile]
  have hrev : (u2 ++ (c :: q) ++ v).reverse = v.reverse ++ (d :: r) ++ u2.reverse := by
    rw [← hpr]; simp [List.reverse_append, List.append_assoc]
  rw [hrev]
  obtain ⟨w, hw⟩ := dropWhile_keep d r u2.reverse hd v.reverse
  rw [hw]
  refine (containsSub_iff _ _).mpr ⟨u2, w.reverse, ?_⟩
  rw [show (d : Char) :: r = (c :: q).reverse from hpr.symm]
  simp [List.reverse_append, List.append_assoc]

/-- `dropWhile` produces a suffix. -/
theorem dropWhile_is_suf (pr : Char → Bool) : ∀ l : List Char,
    ∃ u, l = u ++ l.dropWhile pr := by
  intro l
  induction l with
  | nil => exact ⟨[], rfl⟩
  | cons a t ih =>
    by_cases ha : pr a = true
    · obtain ⟨u, hu⟩ := ih
      exact ⟨a :: u, by simpa [List.dropWhile_cons, ha] using congrArg (a :: ·) hu⟩
    · exact ⟨[], by simp [List.dropWhile_cons, ha]⟩

/-- Any occurrence inside the stripped list is an occurrence in the original. -/
theorem containsSub_of_pyStrip (p l : List Char)
    (h : containsSub p (pyStrip l) = true) : containsSub p l = true := by
  obtain ⟨u1, hu1⟩ := dropWhile_is_suf isSpace l
  obtain ⟨u2, hu2⟩ := dropWhile_is_suf isSpace (l.dropWhile isSpace).reverse
  have hmid : l.dropWhile isSpace = pyStrip l ++ u2.reverse := by
    rw [pyStrip, dropRightWhile]
    calc l.dropWhile isSpace = (l.dropWhile isSpace).reverse.reverse := by
          rw [List.reverse_reverse]
      _ = (u2 ++ (l.dropWhile isSpace).reverse.dropWhile isSpace).reverse := by rw [← hu2]
      _ = ((l.dropWhile isSpace).reverse.dropWhile isSpace).reverse ++ u2.reverse := by
          rw [List.reverse_append]
  obtain ⟨a, b, hab⟩ := (containsSub_iff p (pyStrip l)).mp h
  refine (containsSub_iff p l).mpr ⟨u1 ++ a, b ++ u2.reverse, ?_⟩
  rw [hu1, hmid, hab]
  simp [List.append_assoc]

/-- The key `"# crumb:"` occurs in every marker line. -/
theorem marker_has_crumb (path : List Char) :
    containsSub crumbKey (markerLine path) = true := by
  refine (containsSub_iff _ _).mpr ⟨[], ' ' :: (path ++ ['\n']), ?_⟩
  have h : chars "# crumb: " = crumbKey ++ [' '] := by decide
  simp [markerLine, h, List.append_assoc]

/-- The key `"# crumb:"` occurs in the stripped form of every marker line. -/
theorem marker_strip_crumb (path : List Char) :
    containsSub crumbKey (pyStrip (markerLine path)) = true := by
  refine containsSub_pyStrip crumbKey (markerLine path) '#' (chars " crumb:")
    ':' (chars "bmurc #") (by decide) (by decide) (by decide) (by decide) ?_
  exact marker_has_crumb path

/-- A crumb occurrence in a raw line survives stripping. -/
theorem crumb_in_strip_of_raw (l : List Char)
    (h : containsSub crumbKey l = true) : containsSub crumbKey (pyStrip l) = true :=
  containsSub_pyStrip crumbKey l '#' (chars " crumb:") ':' (chars "bmurc #")
    (by decide) (by decide) (by decide) (by decide) h

/-! ### Scan-step and scan-loop lemmas -/

theorem scanStep_brk {i : Nat} {s : ScanState} {l : Line} {n : Nat}
    (h : scanStep i s l = .brk n) : n = i := by
  simp only [scanStep] at h
  repeat' split at h
  all_goals first
    | exact StepRes.noConfusion h
    | (injection h with h2; exact h2.symm)

theorem scanStep_cont_ins {i : Nat} {s : ScanState} {l : Line} {s2 : ScanState}
    (h : scanStep i s l = .cont s2) (hs : s.ins ≤ i) : s2.ins ≤ i + 1 := by
  simp only [scanStep] at h
  repeat' split at h
  all_goals first
    | exact StepRes.noConfusion h
    | (injection h with h2; subst h2; simp only []; omega)

theorem scanStep_found {i : Nat} {s : ScanState} {l : Line}
    (h : scanStep i s l = .foundCrumb) : containsSub crumbKey (pyStrip l) = true := by
  simp only [scanStep] at h
  repeat' split at h
  all_goals first
    | assumption
    | exact StepRes.noConfusion h

theorem scanStep_of_crumb {i : Nat} {s : ScanState} {l : Line}
    (hc : containsSub crumbKey (pyStrip l) = true) : scanStep i s l = .foundCrumb := by
  simp [scanStep, hc]

/-- The scan invariant: any index returned by the loop is at most the number
of lines, shifted by the starting index. -/
theorem findAux_le (r : Bool) (L : List Line) : ∀ (i : Nat) (s : ScanState), s.ins ≤ i →
    ∀ idx, findAux r i s L = some idx → idx ≤ i + L.length := by
  induction L with
  | nil =>
    intro i s hs idx h
    simp only [findAux, Option.some.injEq] at h
    simp only [List.length_nil]
    omega
  | cons l rest ih =>
    intro i s hs idx h
    simp only [findAux] at h
    cases hstep : scanStep i s l with
    | foundCrumb =>
      simp only [hstep] at h
      split at h
      · injection h with h2
        simp only [List.length_cons]
        omega
      · exact Option.noConfusion h
    | brk n =>
      simp only [hstep, Option.some.injEq] at h
      have := scanStep_brk hstep
      simp only [List.length_cons]
      omega
    | cont s2 =>
      simp only [hstep] at h
      have := ih (i + 1) s2 (scanStep_cont_ins hstep hs) idx h
      simp only [List.length_cons]
      omega

/-- With `replace=True` the scan never returns `None`. -/
theorem findAux_replace_ne_none (L : List Line) : ∀ (i : Nat) (s : ScanState),
    findAux true i s L ≠ none := by
  induction L with
  | nil => intro i s h; exact Option.noConfusion h
  | cons l rest ih =>
    intro i s h
    simp only [findAux] at h
    cases hstep : scanStep i s l with
    | foundCrumb => simp [hstep] at h
    | brk n => simp [hstep] at h
    | cont s2 =>
      simp only [hstep] at h
      exact ih (i + 1) s2 h

/-- When some raw line contains the marker key, any returned index is a strict
position (so `lines[idx] = marker_line` is in range). -/
theorem findAux_lt_of_any (r : Bool) (L : List Line) : ∀ (i : Nat) (s : ScanState) (idx : Nat),
    L.any (fun l => containsSub crumbKey l) = true →
    findAux r i s L = some idx → idx < i + L.length := by
  induction L with
  | nil => intro i s idx hany h; simp at hany
  | cons l rest ih =>
    intro i s idx hany h
    simp only [findAux] at h
    cases hstep : scanStep i s l with
    | foundCrumb =>
      simp only [hstep] at h
      split at h
      · injection h with h2
        simp only [List.length_cons]
        omega
      · exact Option.noConfusion h
    | brk n =>
      simp only [hstep, Option.some.injEq] at h
      have := scanStep_brk hstep
      simp only [List.length_cons]
      omega
    | cont s2 =>
      simp only [hstep] at h
      have hl : containsSub crumbKey l = false := by
        by_contra hh
        have hh2 : containsSub crumbKey l = true := by
          cases hcl : containsSub crumbKey l with
          | true => rfl
          | false => exact absurd hcl hh
        have := scanStep_of_crumb (i := i) (s := s) (crumb_in_strip_of_raw l hh2)
        rw [this] at hstep
        exact StepRes.noConfusion hstep
      have hrest : rest.any (fun l => containsSub crumbKey l) = true := by
        simp only [List.any_cons, Bool.or_eq_true, hl] at hany
        simpa using hany
      have := ih (i + 1) s2 idx hrest h
      simp only [List.length_cons]
      omega

/-- Scanning an all-`continue` block then the remainder equals scanning the
remainder from the block's final state. -/
theorem scanPre_append (P : List Line) : ∀ (i : Nat) (s s2 : ScanState),
    scanPre i s P = some s2 → ∀ (S : List Line) (r : Bool),
    findAux r i s (P ++ S) = findAux r (i + P.length) s2 S := by
  induction P with
  | nil =>
    intro i s s2 hp S r
    simp only [scanPre, Option.some.injEq] at hp
    subst hp
    simp
  | cons p P2 ih =>
    intro i s s2 hp S r
    simp only [scanPre] at hp
    cases hstep : scanStep i s p with
    | foundCrumb => simp [hstep] at hp
    | brk n => simp [hstep] at hp
    | cont s3 =>
      simp only [hstep] at hp
      have harith : i + 1 + P2.length = i + (p :: P2).length := by
        simp only [List.length_cons]; omega
      calc findAux r i s ((p :: P2) ++ S)
          = findAux r (i + 1) s3 (P2 ++ S) := by
            simp only [List.cons_append, findAux, hstep, List.append_eq]
        _ = findAux r (i + 1 + P2.length) s2 S := ih (i + 1) s3 s2 hp S r
        _ = findAux r (i + (p :: P2).length) s2 S := by rw [harith]

/-- Whenever the non-replace scan returns an index `idx`, all lines strictly
before `idx` are `continue` steps: the scan of that leading block succeeds. -/
theorem findAux_some_scanPre (L : List Line) : ∀ (i : Nat) (s : ScanState) (idx : Nat),
    s.ins ≤ i → findAux false i s L = some idx →
    idx ≤ i + L.length ∧ ∃ s2, scanPre i s (L.take (idx - i)) = some s2 := by
  induction L with
  | nil =>
    intro i s idx hs h
    simp only [findAux, Option.some.injEq] at h
    have h0 : idx - i = 0 := by omega
    refine ⟨by simp only [List.length_nil]; omega, s, ?_⟩
    rw [h0]
    rfl
  | cons l rest ih =>
    intro i s idx hs h
    simp only [findAux] at h
    cases hstep : scanStep i s l with
    | foundCrumb => simp [hstep] at h
    | brk n =>
      simp only [hstep, Option.some.injEq] at h
      have hn := scanStep_brk hstep
      have h0 : idx - i = 0 := by omega
      refine ⟨by simp only [List.length_cons]; omega, s, ?_⟩
      rw [h0]
      rfl
    | cont s2 =>
      simp only [hstep] at h
      obtain ⟨hb, s3, hpre⟩ := ih (i + 1) s2 idx (scanStep_cont_ins hstep hs) h
      refine ⟨by simp only [List.length_cons]; omega, ?_⟩
      rcases Nat.lt_or_ge idx (i + 1) with hlt | hge
      · have h0 : idx - i = 0 := by omega
        exact ⟨s, by rw [h0]; rfl⟩
      · have hdi : idx - i = (idx - (i + 1)) + 1 := by omega
        refine ⟨s3, ?_⟩
        rw [hdi, List.take_succ_cons]
        simp only [scanPre, hstep]
        exact hpre

/-- If the scan meets a marker line, the non-replace scan returns `None`. -/
theorem scanCrumbIdx_none (L : List Line) : ∀ (i : Nat) (s : ScanState) (j : Nat),
    scanCrumbIdx i s L = some j → findAux false i s L = none := by
  induction L with
  | nil => intro i s j h; exact Option.noConfusion h
  | cons l rest ih =>
    intro i s j h
    simp only [scanCrumbIdx] at h
    cases hstep : scanStep i s l with
    | foundCrumb => simp [findAux, hstep]
    | brk n => simp [hstep] at h
    | cont s2 =>
      simp only [hstep] at h
      simp only [findAux, hstep]
      exact ih (i + 1) s2 j h

/-- If the scan meets a marker line at `j`, the replace scan returns `j`. -/
theorem scanCrumbIdx_replace (L : List Line) : ∀ (i : Nat) (s : ScanState) (j : Nat),
    scanCrumbIdx i s L = some j → findAux true i s L = some j := by
  induction L with
  | nil => intro i s j h; exact Option.noConfusion h
  | cons l rest ih =>
    intro i s j h
    simp only [scanCrumbIdx] at h
    cases hstep : scanStep i s l with
    | foundCrumb =>
      simp only [hstep, Option.some.injEq] at h
      subst h
      simp [findAux, hstep]
    | brk n => simp [hstep] at h
    | cont s2 =>
      simp only [hstep] at h
      simp only [findAux, hstep]
      exact ih (i + 1) s2 j h

/-- The index at which the scan meets a marker is in range and names a line
whose stripped content contains the key. -/
theorem scanCrumbIdx_spec (L : List Line) : ∀ (i : Nat) (s : ScanState) (j : Nat),
    scanCrumbIdx i s L = some j → i ≤ j ∧ ∃ (h2 : j - i < L.length),
      containsSub crumbKey (pyStrip (L.get ⟨j - i, h2⟩)) = true := by
  induction L with
  | nil => intro i s j h; exact Option.noConfusion h
  | cons l rest ih =>
    intro i s j h
    simp only [scanCrumbIdx] at h
    cases hstep : scanStep i s l with
    | foundCrumb =>
      simp only [hstep, Option.some.injEq] at h
      subst h
      have h0 : i - i = 0 := by omega
      refine ⟨Nat.le_refl i, ?_⟩
      rw [h0]
      exact ⟨by simp only [List.length_cons]; omega, scanStep_found hstep⟩
    | brk n => simp [hstep] at h
    | cont s2 =>
      simp only [hstep] at h
      obtain ⟨hij, h2, hc⟩ := ih (i + 1) s2 j h
      have hdi : j - i = (j - (i + 1)) + 1 := by omega
      refine ⟨by omega, ?_⟩
      rw [hdi]
      refine ⟨by simp only [List.length_cons]; omega, ?_⟩
      simpa using hc

/-! ### Higher-level helper lemmas -/

/-- After inserting a line whose stripped content contains the key at the
index returned by the non-replace scan, the scan returns `None`. -/
theorem find_after_insert (lines : List Line) (idx : Nat) (marker : Line)
    (hm : containsSub crumbKey (pyStrip marker) = true)
    (h : find_insertion_index lines false = some idx) :
    find_insertion_index (pyInsert idx marker lines) false = none := by
  obtain ⟨hb, s2, hpre⟩ := findAux_some_scanPre lines 0 ⟨0, false, []⟩ idx (Nat.le_refl 0) h
  rw [Nat.sub_zero] at hpre
  have hlen : (lines.take idx).length = idx := by
    rw [List.length_take]
    omega
  have heq := scanPre_append (lines.take idx) 0 ⟨0, false, []⟩ s2 hpre
    (marker :: lines.drop idx) false
  rw [hlen] at heq
  show findAux false 0 ⟨0, false, []⟩ (lines.take idx ++ marker :: lines.drop idx) = none
  rw [heq]
  simp only [findAux, scanStep_of_crumb hm]
  rfl

/-- A line whose content starts with `#` does not match the doc-block regex. -/
theorem docstringMatch_hash (t : List Char) : docstringMatch ('#' :: t) = false := by
  cases t with
  | nil => rfl
  | cons c2 t2 =>
    cases t2 with
    | nil => rfl
    | cons c3 t3 => rfl

/-- A stripped line matching the doc-block regex is neither a shebang nor an
encoding declaration. -/
theorem docstringMatch_no_hash (s : List Char) (h : docstringMatch s = true) :
    isPre shebangKey s = false ∧ isPre codingKey s = false := by
  constructor
  · cases hp : isPre shebangKey s with
    | false => rfl
    | true =>
      obtain ⟨t, ht⟩ := (isPre_iff _ _).mp hp
      rw [ht, show shebangKey = '#' :: ['!'] from by decide, List.cons_append,
        docstringMatch_hash] at h
      exact Bool.noConfusion h
  · cases hp : isPre codingKey s with
    | false => rfl
    | true =>
      obtain ⟨t, ht⟩ := (isPre_iff _ _).mp hp
      rw [ht, show codingKey = '#' :: chars " -*- coding:" from by decide, List.cons_append,
        docstringMatch_hash] at h
      exact Bool.noConfusion h

/-- Scanning the interior of an open documentation block: lines that contain
no key, are no encoding declaration and do not end with the delimiter are all
`continue` steps that leave the state unchanged. -/
theorem scan_doc_body (delim : List Char) (body : List Line) : ∀ (i : Nat) (s : ScanState),
    1 ≤ i → s.inDoc = true → s.delim = delim →
    (∀ l ∈ body, containsSub crumbKey (pyStrip l) = false ∧
      isPre codingKey (pyStrip l) = false ∧ isSuf delim (pyStrip l) = false) →
    ∀ (S : List Line) (r : Bool),
      findAux r i s (body ++ S) = findAux r (i + body.length) s S := by
  induction body with
  | nil => intro i s hi hdoc hdel hb S r; simp
  | cons l rest ih =>
    intro i s hi hdoc hdel hb S r
    obtain ⟨ins, sdoc, sdel⟩ := s
    simp only at hdoc hdel
    subst hdoc
    subst hdel
    obtain ⟨hc, hk, hs⟩ := hb l (List.mem_cons_self l rest)
    have hi0 : (i == 0) = false := by
      exact beq_eq_false_iff_ne.mpr (by omega)
    have hstep : scanStep i ⟨ins, true, sdel⟩ l = .cont ⟨ins, true, sdel⟩ := by
      simp only [scanStep, hc, hi0, hk, hs, Bool.false_and, Bool.and_false, Bool.not_true,
        if_false, Bool.false_eq_true]
    calc findAux r i ⟨ins, true, sdel⟩ ((l :: rest) ++ S)
        = findAux r (i + 1) ⟨ins, true, sdel⟩ (rest ++ S) := by
          simp only [List.cons_append, findAux, hstep, List.append_eq]
      _ = findAux r (i + 1 + rest.length) ⟨ins, true, sdel⟩ S :=
          ih (i + 1) ⟨ins, true, sdel⟩ (by omega) rfl rfl
            (fun l2 hl2 => hb l2 (List.mem_cons_of_mem l hl2)) S r
      _ = findAux r (i + (l :: rest).length) ⟨ins, true, sdel⟩ S := by
          have : i + 1 + rest.length = i + (l :: rest).length := by
            simp only [List.length_cons]; omega
          rw [this]

/-- The degraded ignore filter is the disjunction of its per-pattern tests. -/
theorem should_ignore_eq_any (rel : List Char) : ∀ ps : List (List Char),
    should_ignore rel ps =
      ps.any (fun p => (isSuf (chars "/") p && isPre p.dropLast rel) || containsSub p rel) := by
  intro ps
  induction ps with
  | nil => rfl
  | cons p rest ih =>
    simp only [should_ignore, List.any_cons]
    cases hA : isSuf (chars "/") p && isPre p.dropLast rel with
    | true => simp [hA]
    | false =>
      cases hB : containsSub p rel with
      | true => simp [hA, hB]
      | false => simp [hA, hB, ih]

/-! ### Claim theorems -/

/-- Claim C1: every file processed by the mutator is either left untouched
(a skip, an error path, or a dry run) or changed by exactly one line: the
marker line is inserted at an index within bounds, or overwrites exactly one
existing line in place.  In particular the mutator never crashes. -/
theorem C1_one_line_change (content : Option (List Line)) (path : List Char)
    (dry_run backup_fails write_fails replace : Bool) :
    (insert_path_marker content (markerLine path) dry_run backup_fails write_fails replace
        = .skipped ∨
     insert_path_marker content (markerLine path) dry_run backup_fails write_fails replace
        = .dryRun) ∨
    ∃ lines idx, content = some lines ∧ idx ≤ lines.length ∧
      (insert_path_marker content (markerLine path) dry_run backup_fails write_fails replace
          = .modified (lines.take idx ++ markerLine path :: lines.drop idx) ∨
       (idx < lines.length ∧
        insert_path_marker content (markerLine path) dry_run backup_fails write_fails replace
          = .modified (lines.set idx (markerLine path)))) := by
  cases content with
  | none => exact Or.inl (Or.inl rfl)
  | some lines =>
    cases he : lines.isEmpty with
    | true => exact Or.inl (Or.inl (by simp [insert_path_marker, he]))
    | false =>
      cases hf : find_insertion_index lines replace with
      | none => exact Or.inl (Or.inl (by simp [insert_path_marker, he, hf]))
      | some idx =>
        cases hd : dry_run with
        | true => exact Or.inl (Or.inr (by simp [insert_path_marker, he, hf, hd]))
        | false =>
          cases hbk : backup_fails with
          | true => exact Or.inl (Or.inl (by simp [insert_path_marker, he, hf, hd, hbk]))
          | false =>
            cases hrb : replace && lines.any (fun l => containsSub crumbKey l) with
            | true =>
              have hany : lines.any (fun l => containsSub crumbKey l) = true :=
                (Bool.and_eq_true _ _).mp hrb |>.2
              have hidx : idx < lines.length := by
                have := findAux_lt_of_any replace lines 0 ⟨0, false, []⟩ idx hany hf
                omega
              cases hw : write_fails with
              | true =>
                exact Or.inl (Or.inl (by simp [insert_path_marker, he, hf, hd, hbk, hrb, hidx, hw]))
              | false =>
                refine Or.inr ⟨lines, idx, rfl, Nat.le_of_lt hidx, Or.inr ⟨hidx, ?_⟩⟩
                simp [insert_path_marker, he, hf, hd, hbk, hrb, hidx, hw]
            | false =>
              have hle : idx ≤ lines.length := by
                have := findAux_le replace lines 0 ⟨0, false, []⟩ (Nat.le_refl 0) idx hf
                omega
              cases hw : write_fails with
              | true =>
                exact Or.inl (Or.inl (by simp [insert_path_marker, he, hf, hd, hbk, hrb, hw]))
              | false =>
                refine Or.inr ⟨lines, idx, rfl, hle, Or.inl ?_⟩
                simp [insert_path_marker, pyInsert, he, hf, hd, hbk, hrb, hw]

/-- Claim C7: the analyzer always returns either the do-not-touch signal
`none` or an index bounded by the number of lines. -/
theorem C7_analyzer_range (lines : List Line) (replace : Bool) :
    find_insertion_index lines replace = none ∨
    ∃ i, i ≤ lines.length ∧ find_insertion_index lines replace = some i := by
  cases hf : find_insertion_index lines replace with
  | none => exact Or.inl rfl
  | some i =>
    refine Or.inr ⟨i, ?_, rfl⟩
    have := findAux_le replace lines 0 ⟨0, false, []⟩ (Nat.le_refl 0) i hf
    omega

/-- Claim C6: idempotence.  After a successful non-replace insertion, the
analyzer answers `None` (skip) on the produced line sequence, so a second
non-replace run leaves the file untouched. -/
theorem C6_idempotent (lines newLines : List Line) (path path2 : List Char)
    (h : insert_path_marker (some lines) (markerLine path) false false false false
        = .modified newLines) :
    find_insertion_index newLines false = none ∧
    insert_path_marker (some newLines) (markerLine path2) false false false false
      = .skipped := by
  simp only [insert_path_marker] at h
  cases he : lines.isEmpty with
  | true => rw [he] at h; exact absurd h (by simp)
  | false =>
    rw [he] at h
    cases hf : find_insertion_index lines false with
    | none => simp only [hf] at h; exact absurd h (by simp)
    | some idx =>
      simp only [hf] at h
      simp only [Bool.false_eq_true, if_false, Bool.false_and, MutResult.modified.injEq] at h
      have hnone := find_after_insert lines idx (markerLine path) (marker_strip_crumb path) hf
      rw [h] at hnone
      refine ⟨hnone, ?_⟩
      have hne : newLines.isEmpty = false := by
        rw [← h]
        simp [pyInsert]
      simp [insert_path_marker, hne, hnone]

/-- Claim C6 witness: inserting into a one-line file, then running again. -/
theorem C6_witness :
    insert_path_marker (some [chars "x = 1\n"]) (markerLine (chars "a.py"))
      false false false false
      = .modified [markerLine (chars "a.py"), chars "x = 1\n"] ∧
    (find_insertion_index [markerLine (chars "a.py"), chars "x = 1\n"] false = none ∧
     insert_path_marker (some [markerLine (chars "a.py"), chars "x = 1\n"])
       (markerLine (chars "a.py")) false false false false = .skipped) :=
  ⟨by decide,
   C6_idempotent [chars "x = 1\n"] [markerLine (chars "a.py"), chars "x = 1\n"]
     (chars "a.py") (chars "a.py") (by decide)⟩

/-- Claim C9: when the scanned leading region contains a line with the key,
the non-replace analyzer returns the skip signal and the mutator never writes
(whatever the dry-run/backup/write outcomes). -/
theorem C9_skip_existing (lines : List Line) (marker : Line) (j : Nat)
    (dry backup wfail : Bool)
    (h : scanCrumbIdx 0 ⟨0, false, []⟩ lines = some j) :
    find_insertion_index lines false = none ∧
    insert_path_marker (some lines) marker dry backup wfail false = .skipped := by
  have hnone : find_insertion_index lines false = none :=
    scanCrumbIdx_none lines 0 ⟨0, false, []⟩ j h
  refine ⟨hnone, ?_⟩
  have hne : lines.isEmpty = false := by
    cases lines with
    | nil => exact absurd h (by simp [scanCrumbIdx])
    | cons a l => rfl
  simp [insert_path_marker, hne, hnone]

/-- Claim C9 witness: a file whose first line is a marker line. -/
theorem C9_witness :
    scanCrumbIdx 0 ⟨0, false, []⟩ [chars "# crumb: src/a.py\n"] = some 0 ∧
    (find_insertion_index [chars "# crumb: src/a.py\n"] false = none ∧
     insert_path_marker (some [chars "# crumb: src/a.py\n"]) (markerLine (chars "b.py"))
       true true true false = .skipped) :=
  ⟨by decide,
   C9_skip_existing [chars "# crumb: src/a.py\n"] (markerLine (chars "b.py")) 0
     true true true (by decide)⟩

/-- Claim C10: with replace mode on but no line containing the key anywhere,
the mutator inserts a fresh marker at the computed index: the line count grows
by one and no existing line is overwritten. -/
theorem C10_replace_inserts (lines : List Line) (marker : Line)
    (hne : lines.isEmpty = false)
    (hno : lines.any (fun l => containsSub crumbKey l) = false) :
    ∃ idx, find_insertion_index lines true = some idx ∧ idx ≤ lines.length ∧
      insert_path_marker (some lines) marker false false false true
        = .modified (lines.take idx ++ marker :: lines.drop idx) ∧
      (lines.take idx ++ marker :: lines.drop idx).length = lines.length + 1 := by
  cases hf : find_insertion_index lines true with
  | none => exact absurd hf (findAux_replace_ne_none lines 0 ⟨0, false, []⟩)
  | some idx =>
    have hle : idx ≤ lines.length := by
      have := findAux_le true lines 0 ⟨0, false, []⟩ (Nat.le_refl 0) idx hf
      omega
    refine ⟨idx, rfl, hle, ?_, ?_⟩
    · simp [insert_path_marker, pyInsert, hne, hf, hno]
    · simp only [List.length_append, List.length_take, List.length_cons, List.length_drop]
      omega

/-- Claim C10 witness: a one-line file with no marker, replace mode on. -/
theorem C10_witness :
    ∃ idx, find_insertion_index [chars "y = 2\n"] true = some idx ∧
      idx ≤ ([chars "y = 2\n"] : List Line).length ∧
      insert_path_marker (some [chars "y = 2\n"]) (markerLine (chars "m.py")) false false false
        true = .modified (([chars "y = 2\n"] : List Line).take idx ++
          markerLine (chars "m.py") :: ([chars "y = 2\n"] : List Line).drop idx) ∧
      (([chars "y = 2\n"] : List Line).take idx ++
        markerLine (chars "m.py") :: ([chars "y = 2\n"] : List Line).drop idx).length
        = ([chars "y = 2\n"] : List Line).length + 1 :=
  C10_replace_inserts [chars "y = 2\n"] (markerLine (chars "m.py")) (by decide) (by decide)

/-- Claim C2 counterexample: a file whose marker lies after ordinary content.
The scan breaks at the first ordinary line and returns index 0, not the
marker's index 1, and the mutator overwrites line 0 — a non-marker line —
destroying `x = 1`. -/
theorem C2_counterexample :
    find_insertion_index [chars "x = 1\n", chars "# crumb: old\n"] true = some 0 ∧
    (0 : Nat) ≠ 1 ∧
    insert_path_marker (some [chars "x = 1\n", chars "# crumb: old\n"])
      (markerLine (chars "src/a.py")) false false false true
      = .modified [markerLine (chars "src/a.py"), chars "# crumb: old\n"] :=
  ⟨by decide, by decide, by decide⟩

/-- Claim C2 (amended): for every line sequence whose scanned leading region
contains a line with the key, with replace mode on, the analyzer returns that
line's index (the first the scan meets), that line's stripped content contains
the key, and the mutator overwrites exactly that line in place — no other line
shifts. -/
theorem C2_replace_in_region (lines : List Line) (path : List Char) (j : Nat)
    (h : scanCrumbIdx 0 ⟨0, false, []⟩ lines = some j) :
    find_insertion_index lines true = some j ∧
    ∃ (hj : j < lines.length),
      containsSub crumbKey (pyStrip (lines.get ⟨j, hj⟩)) = true ∧
      insert_path_marker (some lines) (markerLine path) false false false true
        = .modified (lines.set j (markerLine path)) := by
  have hfind : find_insertion_index lines true = some j :=
    scanCrumbIdx_replace lines 0 ⟨0, false, []⟩ j h
  obtain ⟨h0j, hj0, hc⟩ := scanCrumbIdx_spec lines 0 ⟨0, false, []⟩ j h
  have hj : j < lines.length := by omega
  refine ⟨hfind, hj, ?_, ?_⟩
  · simpa using hc
  · have hne : lines.isEmpty = false := by
      cases lines with
      | nil => simp at hj
      | cons a l => rfl
    have hraw : containsSub crumbKey (lines.get ⟨j, hj⟩) = true := by
      refine containsSub_of_pyStrip _ _ ?_
      simpa using hc
    have hany : lines.any (fun l => containsSub crumbKey l) = true := by
      refine List.any_eq_true.mpr ⟨lines.get ⟨j, hj⟩, List.get_mem lines j hj, hraw⟩
    simp [insert_path_marker, hne, hfind, hany, hj]

/-- Claim C2 (amended) witness: marker on line 0, content on line 1. -/
theorem C2_witness :
    find_insertion_index [chars "# crumb: old\n", chars "x\n"] true = some 0 ∧
    ∃ (hj : (0 : Nat) < ([chars "# crumb: old\n", chars "x\n"] : List Line).length),
      containsSub crumbKey
        (pyStrip (([chars "# crumb: old\n", chars "x\n"] : List Line).get ⟨0, hj⟩)) = true ∧
      insert_path_marker (some [chars "# crumb: old\n", chars "x\n"])
        (markerLine (chars "p.py")) false false false true
        = .modified (([chars "# crumb: old\n", chars "x\n"] : List Line).set 0
            (markerLine (chars "p.py"))) :=
  C2_replace_in_region [chars "# crumb: old\n", chars "x\n"] (chars "p.py") 0 (by decide)

/-- Claim C8 counterexample: the sequence `"""`, `"""`, `"""x"""` begins with
a multi-line documentation block spanning lines 0..1 (`k = 1`), yet the
analyzer returns 3, not `k + 1 = 2`, because it also skips the following
single-line triple-quote block. -/
theorem C8_counterexample :
    find_insertion_index
      [chars "\"\"\"\n", chars "\"\"\"\n", chars "\"\"\"x\"\"\"\n"] false = some 3 ∧
    (3 : Nat) ≠ 1 + 1 :=
  ⟨by decide, by decide⟩

/-- Claim C8 (amended): a sequence beginning with a multi-line documentation
block on lines 0..k (opened on line 0, closed on line k, no marker or encoding
line inside), followed by nothing or by a line that is neither a marker line
nor a triple-quote line, gets insertion index `k + 1` (here `k` is
`body.length + 1`). -/
theorem C8_doc_block_index (opener closer : Line) (body rest : List Line)
    (h1 : docstringMatch (pyStrip opener) = true)
    (h2 : containsSub crumbKey (pyStrip opener) = false)
    (h3 : (isSuf ((pyStrip opener).take 3) (pyStrip opener) &&
           decide ((pyStrip opener).length > 3)) = false)
    (h4 : ∀ l ∈ body, containsSub crumbKey (pyStrip l) = false ∧
          isPre codingKey (pyStrip l) = false ∧
          isSuf ((pyStrip opener).take 3) (pyStrip l) = false)
    (h5c : containsSub crumbKey (pyStrip closer) = false)
    (h5k : isPre codingKey (pyStrip closer) = false)
    (h5s : isSuf ((pyStrip opener).take 3) (pyStrip closer) = true)
    (h6 : rest = [] ∨ ∃ r2 rs, rest = r2 :: rs ∧
          containsSub crumbKey (pyStrip r2) = false ∧ docstringMatch (pyStrip r2) = false) :
    find_insertion_index (opener :: (body ++ closer :: rest)) false
      = some (body.length + 2) := by
  obtain ⟨hshe, hcod⟩ := docstringMatch_no_hash (pyStrip opener) h1
  have hstep0 : scanStep 0 ⟨0, false, []⟩ opener
      = .cont ⟨1, true, (pyStrip opener).take 3⟩ := by
    simp only [scanStep, h2, hshe, hcod, h1, h3, Bool.and_false, Bool.not_false,
      Bool.false_eq_true, if_false, if_true, Bool.not_true]
  have hstepc : scanStep (1 + body.length) ⟨1, true, (pyStrip opener).take 3⟩ closer
      = .cont ⟨1 + body.length + 1, false, (pyStrip opener).take 3⟩ := by
    have hi0 : (1 + body.length == 0) = false := by
      exact beq_eq_false_iff_ne.mpr (by omega)
    simp only [scanStep, h5c, hi0, h5k, h5s, Bool.false_and, Bool.and_false, Bool.not_true,
      if_false, Bool.false_eq_true, if_true]
  calc find_insertion_index (opener :: (body ++ closer :: rest)) false
      = findAux false 1 ⟨1, true, (pyStrip opener).take 3⟩ (body ++ closer :: rest) := by
        simp only [find_insertion_index, findAux, hstep0]
    _ = findAux false (1 + body.length) ⟨1, true, (pyStrip opener).take 3⟩ (closer :: rest) :=
        scan_doc_body ((pyStrip opener).take 3) body 1 ⟨1, true, (pyStrip opener).take 3⟩
          (Nat.le_refl 1) rfl rfl h4 (closer :: rest) false
    _ = findAux false (1 + body.length + 1)
          ⟨1 + body.length + 1, false, (pyStrip opener).take 3⟩ rest := by
        simp only [findAux, hstepc]
    _ = some (body.length + 2) := by
        rcases h6 with rfl | ⟨r2, rs, rfl, hr2c, hr2d⟩
        · simp only [findAux, Option.some.injEq]
          omega
        · have hi0 : (1 + body.length + 1 == 0) = false := by
            exact beq_eq_false_iff_ne.mpr (by omega)
          have hi1 : decide (1 + body.length + 1 ≤ 1) = false := by
            simp only [decide_eq_false_iff_not]
            omega
          have hstepr : scanStep (1 + body.length + 1)
              ⟨1 + body.length + 1, false, (pyStrip opener).take 3⟩ r2
              = .brk (1 + body.length + 1) := by
            simp only [scanStep, hr2c, hi0, hi1, hr2d, Bool.false_and, Bool.not_false,
              Bool.false_eq_true, if_false, if_true]
          simp only [findAux, hstepr, Option.some.injEq]
          omega

/-- Claim C8 (amended) witness: opener, one body line, closer, ordinary line. -/
theorem C8_witness :
    find_insertion_index
      [chars "\"\"\"\n", chars "doc\n", chars "\"\"\"\n", chars "x = 1\n"] false = some 3 := by
  have h := C8_doc_block_index (chars "\"\"\"\n") (chars "\"\"\"\n")
    [chars "doc\n"] [chars "x = 1\n"] (by decide) (by decide) (by decide) (by decide)
    (by decide) (by decide) (by decide)
    (Or.inr ⟨chars "x = 1\n", [], rfl, by decide, by decide⟩)
  simpa using h

/-- Claim C5 counterexample: in degraded mode the pattern `tests/` also
matches `src/tests/a.py` (through the substring fallback branch), although
that relative path starts neither with `tests/` nor with `tests`. -/
theorem C5_counterexample :
    should_ignore (chars "src/tests/a.py") [chars "tests/"] = true ∧
    isPre (chars "tests/") (chars "src/tests/a.py") = false ∧
    isPre (chars "tests") (chars "src/tests/a.py") = false :=
  ⟨by decide, by decide, by decide⟩

/-- Claim C5 (amended): in degraded mode `should_ignore` returns true exactly
when some stored pattern matches, where a pattern ending in `/` matches if the
relative path starts with the pattern minus its trailing slash or the whole
pattern occurs as a substring of the path, and any pattern matches if it
occurs as a substring.  A pattern `tests/` excludes candidates under `tests/`,
and `docs/` leaves them included. -/
theorem C5_degraded_ignore :
    (∀ (rel : List Char) (ps : List (List Char)),
      should_ignore rel ps = true ↔
        ∃ p ∈ ps, (isSuf (chars "/") p && isPre p.dropLast rel) = true ∨
          containsSub p rel = true) ∧
    should_ignore (chars "tests/x.py") [chars "tests/"] = true ∧
    should_ignore (chars "tests/x.py") [chars "docs/"] = false := by
  refine ⟨?_, by decide, by decide⟩
  intro rel ps
  rw [should_ignore_eq_any]
  rw [List.any_eq_true]
  constructor
  · rintro ⟨p, hp, hor⟩
    rcases (Bool.or_eq_true _ _).mp hor with h | h
    · exact ⟨p, hp, Or.inl h⟩
    · exact ⟨p, hp, Or.inr h⟩
  · rintro ⟨p, hp, h | h⟩
    · exact ⟨p, hp, (Bool.or_eq_true _ _).mpr (Or.inl h)⟩
    · exact ⟨p, hp, (Bool.or_eq_true _ _).mpr (Or.inr h)⟩

/-- Claim C4 (code bug): the doc-block regex `["']{3}` accepts three quote
characters that are not all identical.  The line `""'x` is treated as opening
a documentation block (remembered delimiter `""'`), so the analyzer returns
index 1 instead of treating it as ordinary content (index 0). -/
theorem C4_mixed_quote_bug :
    docstringMatch (pyStrip ['"', '"', Char.ofNat 39, 'x', '\n']) = true ∧
    find_insertion_index [['"', '"', Char.ofNat 39, 'x', '\n'], chars "y\n"] false
      = some 1 ∧
    find_insertion_index [chars "abc\n", chars "y\n"] false = some 0 :=
  ⟨by decide, by decide, by decide⟩

/-- Claim C3 (code bug): with dry-run on and no candidate file entering the
loop body, the trailing duplicated summary block reads the unassigned
loop-locals `modified`/`had_crumb` and the run aborts (`none`); without
dry-run the same walk completes. -/
theorem C3_dry_run_crash :
    mainRun true false false [] = none ∧
    mainRun false false false [] = some ⟨0, 0, 0, 0⟩ :=
  ⟨rfl, rfl⟩

end Crumb
